import Mathlib

/-!
# Verification of the shadow-query extraction core (`src/chatgpt-content.js`)

This file gives a shallow embedding of the extraction core of the
`ShadowQueryExtractor` class: `normalizeQueryField`, `extractQueryStrings`,
`extractCitations`, `findParentUserPrompt`, `parseConversation`, and the
outcome classification performed by `extract` after the conversation
document has been fetched.

Modelling conventions:
* JavaScript values are modelled by the inductive `JSVal`.  Numbers are
  modelled as integers (no floating point is load-bearing for any property
  considered here: the code only tests numbers for truthiness and passes
  them around).
* Property access `a.b` throws a `TypeError` when `a` is `null`/`undefined`
  and otherwise yields the property value or `undefined`; we model the
  throwing form by `getPropE` (in `Except Unit`) and the optional-chaining
  form `a?.b` plus accesses on bases known to be non-nullish by the total
  `getPropRaw` (which returns `undefined` on a nullish base — such calls are
  only made where the source guarantees the base is truthy).
* `JSON.parse` is a platform primitive; it is modelled by an explicit
  parameter `jp : String → Option JSVal` (`none` = the parse throws).  No
  claim depends on the actual JSON grammar, only on parse success/failure.
* JS string methods: `trim` is modelled by `jsTrim`, `toLowerCase` by
  `jsToLower` (per-character), `join(' ')` by `joinSpace` — structurally
  recursive so that concrete instances evaluate.  (The exact Unicode
  whitespace/case tables differ marginally; none of the claims depends on
  that difference.)
* `Set` membership (`seenUrls`, `seenLower`, `visited`) is modelled by list
  membership.  JS `Set` uses SameValueZero, i.e. reference identity for
  object keys; this coincides with structural equality on the primitive
  (string) keys that the specification addresses.
* Thrown exceptions are modelled with `Except Unit`; `try { … } catch {}`
  blocks are modelled by functions that absorb the error while keeping the
  mutations performed before the throw (JS array `push` mutates in place,
  so pushes performed before an exception inside a `try` survive).
-/

/-- Model of a JavaScript value.  Numbers are modelled as integers. -/
inductive JSVal : Type where
  | null : JSVal
  | undef : JSVal
  | bool : Bool → JSVal
  | num : Int → JSVal
  | str : String → JSVal
  | arr : List JSVal → JSVal
  | obj : List (String × JSVal) → JSVal

namespace JSVal

mutual

/-- Structural equality test on `JSVal` (used to model `Set` membership and
`===` where both sides are data values). -/
def beq : JSVal → JSVal → Bool
  | .null, .null => true
  | .undef, .undef => true
  | .bool a, .bool b => a == b
  | .num a, .num b => a == b
  | .str a, .str b => a == b
  | .arr a, .arr b => beqList a b
  | .obj a, .obj b => beqFields a b
  | _, _ => false

def beqList : List JSVal → List JSVal → Bool
  | [], [] => true
  | a :: as, b :: bs => beq a b && beqList as bs
  | _, _ => false

def beqFields : List (String × JSVal) → List (String × JSVal) → Bool
  | [], [] => true
  | (k, a) :: as, (l, b) :: bs => k == l && beq a b && beqFields as bs
  | _, _ => false

end

/-- JavaScript truthiness: `false`, `0`, `""`, `null`, `undefined` are falsy;
objects and arrays (even empty) are truthy. -/
def truthy : JSVal → Bool
  | .null => false
  | .undef => false
  | .bool b => b
  | .num n => n != 0
  | .str s => s ≠ ""
  | .arr _ => true
  | .obj _ => true

/-- `null` or `undefined` — the bases on which property access throws. -/
def isNullish : JSVal → Bool
  | .null => true
  | .undef => true
  | _ => false

/-- `Array.isArray`. -/
def isArr : JSVal → Bool
  | .arr _ => true
  | _ => false

/-- `typeof v === 'object' && v` — a truthy value of object type
(plain objects and arrays; `null` is excluded by truthiness). -/
def isObjArr : JSVal → Bool
  | .arr _ => true
  | .obj _ => true
  | _ => false

end JSVal

/-- Structurally recursive model of JS `trim` (drops leading and trailing
whitespace). -/
def jsTrim (s : String) : String :=
  ⟨((s.data.dropWhile Char.isWhitespace).reverse.dropWhile Char.isWhitespace).reverse⟩

/-- Structurally recursive model of JS `toLowerCase` (per-character). -/
def jsToLower (s : String) : String :=
  ⟨s.data.map Char.toLower⟩

/-- Structurally recursive model of JS `Array.prototype.join(' ')`. -/
def joinSpace (l : List String) : String :=
  ⟨(List.intersperse [' '] (l.map String.data)).flatten⟩

/-- Structurally recursive model of decimal parsing, used only to model
canonical-index property lookup. -/
def strToNat? (s : String) : Option Nat :=
  if s.data ≠ [] ∧ s.data.all Char.isDigit then
    some (s.data.foldl (fun n c => n * 10 + (c.toNat - 48)) 0)
  else none

/-- A string that is a canonical array index (`"0"`, `"1"`, …), as used by
JS property lookup on arrays and strings. -/
def strIndex? (k : String) : Option Nat :=
  match strToNat? k with
  | some i => if toString i = k then some i else none
  | none => none

/-- Total property access: yields the property value, `undefined` when the
property is missing, and `undefined` on a nullish base (callers use this
form only where the source guarantees the base is not nullish, or via the
optional-chaining wrapper below). -/
def getPropRaw : JSVal → String → JSVal
  | .obj fs, k =>
    match fs.lookup k with
    | some v => v
    | none => .undef
  | .arr xs, k =>
    if k = "length" then .num xs.length
    else
      match strIndex? k with
      | some i => (xs.get? i).getD .undef
      | none => .undef
  | .str s, k =>
    if k = "length" then .num s.length
    else
      match strIndex? k with
      | some i =>
        match s.data.get? i with
        | some c => .str (String.mk [c])
        | none => .undef
      | none => .undef
  | _, _ => (JSVal.undef)

/-- Property access `a.b` as the source writes it on a value that may be
nullish: throws (`Except.error`) exactly when the base is `null`/`undefined`. -/
def getPropE (v : JSVal) (k : String) : Except Unit JSVal :=
  if v.isNullish then .error () else .ok (getPropRaw v k)

/-- Optional chaining `a?.b`: `undefined` on a nullish base. -/
def getPropOpt (v : JSVal) (k : String) : JSVal :=
  if v.isNullish then .undef else getPropRaw v k

/-- The JS `||` operator on values: the left operand if truthy, else the
right operand. -/
def jsOr (a b : JSVal) : JSVal :=
  if a.truthy then a else b

/-- `Object.values`: field values of an object, elements of an array,
single-character strings for a string, `[]` for other primitives.
(The source only calls it on truthy values.)  Field order models JS
insertion order; the numeric-key-first reordering JS applies to
integer-like keys is not modelled — no claim depends on enumeration
order. -/
def jsValues : JSVal → List JSVal
  | .obj fs => fs.map Prod.snd
  | .arr xs => xs
  | .str s => s.data.map fun c => .str (String.mk [c])
  | _ => []

/-- `for (const x of v)`: iterates arrays (their elements) and strings
(their characters); any other truthy value is not iterable and throws.
The source always applies it to `field || []`, so the falsy case yields
the empty iteration of the default `[]`. -/
def jsIterateE : JSVal → Except Unit (List JSVal)
  | .arr xs => .ok xs
  | .str s => .ok (s.data.map fun c => JSVal.str (String.mk [c]))
  | v => if v.truthy then .error () else .ok []

/-!
## Query-field normalization (`normalizeQueryField`, `extractQueryStrings`)
-/

/-- `normalizeQueryField(field)` (src/chatgpt-content.js:71-80): reduce a
query-bearing field to a flat array.  Falsy → `[]`; a direct array →
itself; an object whose `queries` (then `items`) property is an array →
that inner array; anything else → `[]`.  Never throws: property access on
a truthy base is safe. -/
def normalizeQueryField (field : JSVal) : List JSVal :=
  if ¬ field.truthy then []
  else
    match field with
    | .arr xs => xs
    | _ =>
      match getPropRaw field "queries" with
      | .arr qs => qs
      | _ =>
        match getPropRaw field "items" with
        | .arr is => is
        | _ => []

/-- The candidate-key fallback chain
`q.text || q.query || q.q || q.search_query || ''`
(src/chatgpt-content.js:89).  `||` selects the first *truthy* value; when
all four are falsy the result is the empty string. -/
def candidateValue (q : JSVal) : JSVal :=
  jsOr (getPropRaw q "text")
    (jsOr (getPropRaw q "query")
      (jsOr (getPropRaw q "q")
        (jsOr (getPropRaw q "search_query") (.str ""))))

/-- `extractQueryStrings(arr)` (src/chatgpt-content.js:83-94).  Strings
pass through trimmed when non-blank; truthy values of object type go
through the candidate-key chain and the selected value is trimmed —
`text.trim()` throws a `TypeError` when the selected value is a truthy
non-string, which this model surfaces as `Except.error` (the local
`strings` array is discarded by the throw, so no partial result
escapes). -/
def extractQueryStringsE : List JSVal → Except Unit (List String)
  | [] => .ok []
  | q :: rest =>
    match q with
    | .str s =>
      if jsTrim s = "" then extractQueryStringsE rest
      else do
        let r ← extractQueryStringsE rest
        return jsTrim s :: r
    | .obj _ | .arr _ =>
      match candidateValue q with
      | .str s =>
        if jsTrim s = "" then extractQueryStringsE rest
        else do
          let r ← extractQueryStringsE rest
          return jsTrim s :: r
      | _ => .error ()
    | _ => extractQueryStringsE rest

/-!
## Citations (`extractCitations`, src/chatgpt-content.js:279-357)
-/

/-- A citation record as pushed by `addCitation`.  `title`, `url` and
`type` keep their JS values (the source stores whatever the conversation
document supplied, defaulted through `||`); `refIndex` is the 1-based
index assigned at push time. -/
structure Citation where
  title : JSVal
  url : JSVal
  type : JSVal
  refIndex : Nat

/-- Membership of a key in a seen-set, with a fixed orientation of the
structural comparison (`earlier element` vs `candidate`). -/
def memKey (seen : List JSVal) (k : JSVal) : Bool :=
  seen.any fun s => s.beq k

/-- Citation-extractor state: the `seenUrls` set and the `citations`
array of one `extractCitations` call. -/
abbrev CiteSt := List JSVal × List Citation

/-- `addCitation(title, url, type)` (src/chatgpt-content.js:283-294):
skip when both `url` and `title` are falsy; dedup key is `url || title`;
first occurrence wins; stored fields are defaulted
(`title || url || 'Untitled'`, `url || ''`, `type || 'Citation'`) and
`refIndex` is `citations.length + 1` at push time. -/
def addCitation (st : CiteSt) (title url ty : JSVal) : CiteSt :=
  if ¬ url.truthy ∧ ¬ title.truthy then st
  else
    let key := jsOr url title
    if memKey st.1 key then st
    else
      (key :: st.1,
       st.2 ++ [{ title := jsOr title (jsOr url (.str "Untitled"))
                  url := jsOr url (.str "")
                  type := jsOr ty (.str "Citation")
                  refIndex := st.2.length + 1 }])

/-- Fold of `addCitation` over a list of reference objects where the
source reads `ref.title` / a url field / a type with plain (throwing)
property access; a `null`/`undefined` entry throws (`.error`), losing no
previously pushed citation only when the caller catches. -/
def citeRefsFoldE (title url ty : JSVal → Except Unit JSVal) :
    CiteSt → List JSVal → Except Unit CiteSt
  | st, [] => .ok st
  | st, r :: rs => do
    let t ← title r
    let u ← url r
    let y ← ty r
    citeRefsFoldE title url ty (addCitation st t u y) rs

/-- Like `citeRefsFoldE` but never losing the state: returns the state
reached so far together with an aborted flag, for use inside
`try { … } catch {}` where pushes before the throw survive. -/
def citeRefsFoldC (title url ty : JSVal → Except Unit JSVal) :
    CiteSt → List JSVal → CiteSt × Bool
  | st, [] => (st, false)
  | st, r :: rs =>
    match (do
        let t ← title r
        let u ← url r
        let y ← ty r
        pure (t, u, y) : Except Unit (JSVal × JSVal × JSVal)) with
    | .error _ => (st, true)
    | .ok (t, u, y) => citeRefsFoldC title url ty (addCitation st t u y) rs

/-- The nested loop of `search_result_groups`-shaped data inside the
`try` on `content.result` (src/chatgpt-content.js:345-352): per group,
`group.entries || group.search_results || []` is iterated and each entry
contributes a "Search Result" citation; any throw (nullish group/entry,
non-iterable entries) aborts but keeps the citations pushed so far. -/
def citeParsedGroupsC (st : CiteSt) : List JSVal → CiteSt × Bool
  | [] => (st, false)
  | g :: gs =>
    match (do
        let e1 ← getPropE g "entries"
        let e2 ← getPropE g "search_results"
        jsIterateE (jsOr e1 (jsOr e2 (.arr []))) : Except Unit (List JSVal)) with
    | .error _ => (st, true)
    | .ok entries =>
      match citeRefsFoldC (getPropE · "title") (getPropE · "url")
          (fun _ => .ok (.str "Search Result")) st entries with
      | (st', true) => (st', true)
      | (st', false) => citeParsedGroupsC st' gs

/-- `message.content?.content_type || ''` (src/chatgpt-content.js:151). -/
def msgContentType (message : JSVal) : JSVal :=
  jsOr (getPropOpt (getPropRaw message "content") "content_type") (.str "")

/-- `message.content?.result` (src/chatgpt-content.js:154, 342). -/
def msgContentResult (message : JSVal) : JSVal :=
  getPropOpt (getPropRaw message "content") "result"

/-- The `try { JSON.parse(contentResult) … } catch {}` block of
`extractCitations` (src/chatgpt-content.js:341-354).  A parse failure, a
`null` parse result (property access throws), a non-iterable groups
value, or a throw in the middle of the nested loops leaves the state as
reached at the throw. -/
def citeContentResult (jp : String → Option JSVal) (message : JSVal)
    (st : CiteSt) : CiteSt :=
  match msgContentResult message with
  | .str s =>
    if s = "" then st
    else
      match jp s with
      | none => st
      | some parsed =>
        match (do
            let g1 ← getPropE parsed "groups"
            let g2 ← getPropE parsed "search_result_groups"
            jsIterateE (jsOr g1 (jsOr g2 (.arr []))) : Except Unit (List JSVal)) with
        | .error _ => st
        | .ok groups => (citeParsedGroupsC st groups).1
  | _ => st

/-- `extractCitations(metadata, message)` (src/chatgpt-content.js:279-357).
Scans, in order: `metadata.content_references`; `metadata._cite_metadata`
(its `citation_format?.citations || citations || []` list and its
`metadata_list`); `metadata.search_result_groups` with nested
`search_results || entries || []`; structured content parts ("cite"-typed
parts and parts with both `url` and `title`); and the `content.result`
string parsed as JSON (errors in that last step absorbed by its `try`).
Everything outside that `try` propagates a throw. -/
def extractCitationsE (jp : String → Option JSVal)
    (metadata message : JSVal) : Except Unit (List Citation) := do
  let st : CiteSt := ([], [])
  -- content_references (newer format)
  let refs ← jsIterateE (jsOr (getPropRaw metadata "content_references") (.arr []))
  let st ← citeRefsFoldE (getPropE · "title") (getPropE · "url")
      (fun r => do pure (jsOr (← getPropE r "type") (.str "Citation"))) st refs
  -- _cite_metadata (alternative newer format)
  let citeMeta := getPropRaw metadata "_cite_metadata"
  let st ←
    if citeMeta.truthy then do
      let citeRefs := jsOr (getPropOpt (getPropRaw citeMeta "citation_format") "citations")
          (jsOr (getPropRaw citeMeta "citations") (.arr []))
      let rs ← jsIterateE citeRefs
      let st ← citeRefsFoldE (getPropE · "title")
          (fun r => do pure (jsOr (← getPropE r "url") (← getPropE r "href")))
          (fun _ => .ok (.str "Citation")) st rs
      let metaList := jsOr (getPropRaw citeMeta "metadata_list") (.arr [])
      let ms ← jsIterateE metaList
      citeRefsFoldE (getPropE · "title") (getPropE · "url")
          (fun _ => .ok (.str "Citation")) st ms
    else pure st
  -- search_result_groups (older/alternative format)
  let groups ← jsIterateE (jsOr (getPropRaw metadata "search_result_groups") (.arr []))
  let st ← citeSrgFoldE st groups
  -- content parts
  let parts ← jsIterateE (jsOr (getPropOpt (getPropRaw message "content") "parts") (.arr []))
  let st := citePartsFold st parts
  -- content.result parsed as JSON (try/catch absorbed)
  let st := citeContentResult jp message st
  return st.2
where
  /-- The `search_result_groups` loop on metadata
  (src/chatgpt-content.js:318-324): per group,
  `group.search_results || group.entries || []`. -/
  citeSrgFoldE : CiteSt → List JSVal → Except Unit CiteSt
    | st, [] => .ok st
    | st, g :: gs => do
      let e1 ← getPropE g "search_results"
      let e2 ← getPropE g "entries"
      let entries ← jsIterateE (jsOr e1 (jsOr e2 (.arr [])))
      let st ← citeRefsFoldE (getPropE · "title") (getPropE · "url")
          (fun _ => .ok (.str "Search Result")) st entries
      citeSrgFoldE st gs
  /-- The content-parts loop (src/chatgpt-content.js:327-339): truthy
  object-typed parts contribute a "Footnote" citation when tagged
  `content_type === 'cite'` with a truthy `url`, and a "Source" citation
  when both `url` and `title` are truthy.  Property access on an
  object-typed part never throws. -/
  citePartsFold : CiteSt → List JSVal → CiteSt
    | st, [] => st
    | st, p :: ps =>
      if p.isObjArr then
        let st :=
          if (getPropRaw p "content_type").beq (.str "cite") ∧
              (getPropRaw p "url").truthy then
            addCitation st (getPropRaw p "title") (getPropRaw p "url") (.str "Footnote")
          else st
        let st :=
          if (getPropRaw p "url").truthy ∧ (getPropRaw p "title").truthy then
            addCitation st (getPropRaw p "title") (getPropRaw p "url") (.str "Source")
          else st
        citePartsFold st ps
      else citePartsFold st ps

/-!
## Second-pass deduplication (src/chatgpt-content.js:202-245)
-/

/-- One reported query: trimmed text plus the hidden flag. -/
structure ShadowQuery where
  text : String
  hidden : Bool

/-- One loop of the query-dedup pass (src/chatgpt-content.js:209-224):
walk the accumulated strings, skip those whose lowercase form is in
`seenLower`, otherwise record the lowercase form and emit
`{text, hidden}`.  Returns the updated seen-set and output list. -/
def queryPass (hidden : Bool) :
    List String → List String → List ShadowQuery → List String × List ShadowQuery
  | [], seen, acc => (seen, acc)
  | t :: ts, seen, acc =>
    let lower := jsToLower t
    if lower ∈ seen then queryPass hidden ts seen acc
    else queryPass hidden ts (lower :: seen) (acc ++ [⟨t, hidden⟩])

/-- The full query-dedup of one prompt group: hidden-sourced strings
first (emitted with `hidden = true`), then visible-sourced strings under
the same seen-set (emitted with `hidden = false`). -/
def dedupQueries (shadow visible : List String) : List ShadowQuery :=
  let (seen, acc) := queryPass true shadow [] []
  (queryPass false visible seen acc).2

/-- Dedup key of a citation: `c.url || c.title`
(src/chatgpt-content.js:230). -/
def citKey (c : Citation) : JSVal :=
  jsOr c.url c.title

/-- The citation-dedup loop (src/chatgpt-content.js:227-235): keep the
first occurrence per key, re-assigning `refIndex` as
`uniqueCitations.length + 1` at push time. -/
def dedupCitationsGo (seen : List JSVal) (acc : List Citation) :
    List Citation → List Citation
  | [] => acc
  | c :: cs =>
    let key := citKey c
    if memKey seen key then dedupCitationsGo seen acc cs
    else dedupCitationsGo (key :: seen) (acc ++ [{ c with refIndex := acc.length + 1 }]) cs

/-- Citation dedup of one prompt group. -/
def dedupCitations (cs : List Citation) : List Citation :=
  dedupCitationsGo [] [] cs

/-- Specification-side description of first-occurrence-wins
deduplication in first-seen order: keep the head, drop every later
citation with a structurally equal key, recurse. -/
def firstsByKey : List Citation → List Citation
  | [] => []
  | c :: cs =>
    c :: firstsByKey (cs.filter fun d => !((citKey c).beq (citKey d)))
termination_by l => l.length
decreasing_by
  simp only [List.length_cons]
  exact Nat.lt_succ_of_le (List.length_filter_le _ _)

/-- Specification-side description of contiguous `refIndex` assignment
starting at `n`. -/
def assignRefs (n : Nat) : List Citation → List Citation
  | [] => []
  | c :: cs => { c with refIndex := n } :: assignRefs (n + 1) cs

/-!
## Ancestor walk (`findParentUserPrompt`, src/chatgpt-content.js:251-276)
-/

/-- The unknown-prompt sentinel. -/
def unknownPrompt : String := "(unknown prompt)"

/-- `parts.filter((p) => typeof p === 'string').join(' ').trim()`
(src/chatgpt-content.js:266-269) on the value of
`node.message.content?.parts || []`: an array yields the trimmed
space-join of its plain-string elements; a truthy non-array value has no
`filter` method, so the call throws. -/
def joinUserParts : JSVal → Except Unit String
  | .arr ps =>
    .ok (jsTrim (joinSpace
      (ps.filterMap fun p => match p with | .str s => some s | _ => none)))
  | _ => .error ()

/-- The `parts` value examined by the walk at a user node. -/
def userPartsValue (msg : JSVal) : JSVal :=
  jsOr (getPropOpt (getPropRaw msg "content") "parts") (.arr [])

/-- The `while` loop of `findParentUserPrompt`, fueled.  Arguments:
the node mapping, the `visited` set, the current id value
(`undefined`/empty string stop the loop, as both are falsy in JS), and
the fuel.  Returns `none` when fuel runs out, otherwise the result of
the walk (throwing on a malformed user node, per `joinUserParts`)
together with the final `visited` set.  A truthy *non-string* parent
value — outside the input contract, which types `parent` as a string —
is modelled as ending the walk (JS would coerce it to a string property
key); every claim considered here concerns string ids. -/
def findLoopV (mapping : JSVal) :
    Nat → List String → JSVal → Option (Except Unit String × List String)
  | 0, _, _ => none
  | fuel + 1, visited, cur =>
    match cur with
    | .str id =>
      if id = "" then some (.ok unknownPrompt, visited)
      else if id ∈ visited then some (.ok unknownPrompt, visited)
      else
        let visited' := id :: visited
        let node := getPropRaw mapping id
        if ¬ node.truthy ∨ ¬ (getPropRaw node "message").truthy then
          -- `if (!node || !node.message) { currentId = node?.parent; continue; }`
          findLoopV mapping fuel visited' (getPropOpt node "parent")
        else
          let msg := getPropRaw node "message"
          if (getPropOpt (getPropRaw msg "author") "role").beq (.str "user") then
            some (joinUserParts (userPartsValue msg), visited')
          else
            findLoopV mapping fuel visited' (getPropRaw node "parent")
    | _ => some (.ok unknownPrompt, visited)

/-- The distinct property names under which a lookup on the mapping can
yield a value that continues the walk (object field names; array and
string canonical indices). -/
def propKeys : JSVal → List String
  | .obj fs => (fs.map Prod.fst).dedup
  | .arr xs => (List.range xs.length).map toString
  | .str s => (List.range s.length).map toString
  | _ => []

/-- Fuel that always suffices for the walk (proved below): one step per
distinct mapping key, plus one step for an id outside the mapping, plus
one final step on an exhausted (`undefined`) id. -/
def fuelBound (mapping : JSVal) : Nat :=
  (propKeys mapping).length + 2

/-- `findParentUserPrompt(assistantNode, mapping)`.  The fueled loop is
run with `fuelBound` fuel, which is proved sufficient
(`findLoopV_isSome` below); the default value is dead code. -/
def findParentUserPrompt (mapping node : JSVal) : Except Unit String :=
  ((findLoopV mapping (fuelBound mapping) [] (getPropRaw node "parent")).getD
    (.ok unknownPrompt, [])).1

/-!
## Aggregation (`parseConversation`, src/chatgpt-content.js:97-248) and the
outcome classification of `extract` (src/chatgpt-content.js:456-529)
-/

/-- One prompt bucket (`promptGroups` map value): accumulated
hidden-sourced strings, visible-sourced strings, citations, and the model
identifier recorded at bucket creation. -/
structure PromptGroup where
  shadow : List String
  visible : List String
  citations : List Citation
  model : JSVal

/-- One entry of the final `results` array. -/
structure PromptResult where
  userPrompt : String
  shadowQueries : List ShadowQuery
  citations : List Citation
  model : JSVal

/-- The `promptGroups` map update (src/chatgpt-content.js:188-199):
create the bucket with the message's model on first use, then append the
raw strings and citations.  An existing bucket keeps its original model. -/
def updateGroups (k : String) (sh vi : List String) (cs : List Citation)
    (model : JSVal) : List (String × PromptGroup) → List (String × PromptGroup)
  | [] => [(k, ({ shadow := sh, visible := vi, citations := cs, model := model } : PromptGroup))]
  | (k', g) :: rest =>
    if k' = k then
      (k', { g with shadow := g.shadow ++ sh, visible := g.visible ++ vi,
                    citations := g.citations ++ cs }) :: rest
    else (k', g) :: updateGroups k sh vi cs model rest

/-- The content-parts query probe (src/chatgpt-content.js:136-148): for
each truthy object-typed part, a truthy `search_queries` contributes
visible-sourced strings, then a truthy `search_model_queries` contributes
hidden-sourced strings; a throw inside `extractQueryStrings` propagates. -/
def partsQueryFold : List String → List String → List JSVal →
    Except Unit (List String × List String)
  | sh, vi, [] => .ok (sh, vi)
  | sh, vi, p :: ps =>
    if p.isObjArr then do
      let vi ←
        if (getPropRaw p "search_queries").truthy then do
          let qs ← extractQueryStringsE (normalizeQueryField (getPropRaw p "search_queries"))
          pure (vi ++ qs)
        else pure vi
      let sh ←
        if (getPropRaw p "search_model_queries").truthy then do
          let qs ← extractQueryStringsE (normalizeQueryField (getPropRaw p "search_model_queries"))
          pure (sh ++ qs)
        else pure sh
      partsQueryFold sh vi ps
    else partsQueryFold sh vi ps

/-- The tether-result query probe (src/chatgpt-content.js:150-171).  Only
runs when `message.content?.content_type || ''` is exactly
`'tether_browsing_display'` or `'tether_quote'` and the content carries a
truthy `result` string.  The body is wrapped in `try { … } catch {}`:
a parse failure, a nullish parse result (property access throws), or a
throw inside `extractQueryStrings` is absorbed, keeping the pushes
already performed (the hidden-sourced push precedes the visible-sourced
one). -/
def resultStep (jp : String → Option JSVal) (message : JSVal)
    (sh vi : List String) : List String × List String :=
  if (msgContentType message).beq (.str "tether_browsing_display") ∨
      (msgContentType message).beq (.str "tether_quote") then
    match msgContentResult message with
    | .str s =>
      if s = "" then (sh, vi)
      else
        match jp s with
        | none => (sh, vi)
        | some parsed =>
          match getPropE parsed "search_model_queries" with
          | .error _ => (sh, vi)
          | .ok smq =>
            let step1 : List String × Bool :=
              if smq.truthy then
                match extractQueryStringsE (normalizeQueryField smq) with
                | .error _ => (sh, true)
                | .ok ss => (sh ++ ss, false)
              else (sh, false)
            if step1.2 then (step1.1, vi)
            else
              let sq := getPropRaw parsed "search_queries"
              if sq.truthy then
                match extractQueryStringsE (normalizeQueryField sq) with
                | .error _ => (step1.1, vi)
                | .ok vs => (step1.1, vi ++ vs)
              else (step1.1, vi)
    | _ => (sh, vi)
  else (sh, vi)

/-- The per-node body of the first pass (src/chatgpt-content.js:108-200).
A nullish node throws at `node.message`; a message-less node contributes
nothing; the unused `authorName` computation still throws when
`message.author?.name` is a truthy non-string (no `toLowerCase` method);
the `role` and `recipient` values computed by the source are unused and
throw-free, so they are omitted here.  Query collection: metadata fields,
the `args` fallback (hidden-sourced, only when both primary fields were
empty), content parts, and the tether-result probe; then citations; a
node with no findings is skipped, otherwise the resolved prompt's bucket
is updated. -/
def processNode (jp : String → Option JSVal) (data mapping : JSVal)
    (groups : List (String × PromptGroup)) (node : JSVal) :
    Except Unit (List (String × PromptGroup)) := do
  let message ← getPropE node "message"
  if ¬ message.truthy then return groups
  else do
    let _ ←
      (match jsOr (getPropOpt (getPropRaw message "author") "name") (.str "") with
       | .str s => .ok (jsToLower s)
       | _ => .error () : Except Unit String)
    let metadata := jsOr (getPropRaw message "metadata") (.obj [])
    let shadow0 ← extractQueryStringsE
      (normalizeQueryField (getPropRaw metadata "search_model_queries"))
    let visible0 ← extractQueryStringsE
      (normalizeQueryField (getPropRaw metadata "search_queries"))
    let shadow1 ←
      if (getPropRaw metadata "args").truthy ∧ shadow0 = [] ∧ visible0 = [] then do
        let as ← extractQueryStringsE (normalizeQueryField (getPropRaw metadata "args"))
        pure (if as ≠ [] then shadow0 ++ as else shadow0)
      else pure shadow0
    let parts ← jsIterateE (jsOr (getPropOpt (getPropRaw message "content") "parts") (.arr []))
    let (shadow2, visible2) ← partsQueryFold shadow1 visible0 parts
    let (shadow3, visible3) := resultStep jp message shadow2 visible2
    let cits ← extractCitationsE jp metadata message
    if shadow3.isEmpty && visible3.isEmpty && cits.isEmpty then return groups
    else do
      let userPrompt ← findParentUserPrompt mapping node
      let model := jsOr (getPropRaw metadata "model_slug")
        (jsOr (getPropRaw data "model") (.str "unknown"))
      return updateGroups userPrompt shadow3 visible3 cits model groups

/-- The second pass (src/chatgpt-content.js:202-245): per bucket in
creation order, dedup queries and citations and keep the bucket when
either survives non-empty. -/
def buildResults : List (String × PromptGroup) → List PromptResult
  | [] => []
  | (k, g) :: gs =>
    let sq := dedupQueries g.shadow g.visible
    let uc := dedupCitations g.citations
    if !sq.isEmpty || !uc.isEmpty then
      { userPrompt := k, shadowQueries := sq, citations := uc, model := g.model } ::
        buildResults gs
    else buildResults gs

/-- `parseConversation(conversationData)` (src/chatgpt-content.js:97-248).
`conversationData.mapping` throws on a nullish document; a falsy mapping
returns `[]`; otherwise the first pass folds `processNode` over
`Object.values(mapping)` and the second pass builds the results. -/
def parseConversation (jp : String → Option JSVal) (data : JSVal) :
    Except Unit (List PromptResult) := do
  let mappingV ← getPropE data "mapping"
  if ¬ mappingV.truthy then return []
  else do
    let groups ← (jsValues mappingV).foldlM (fun gs node => processNode jp data mappingV gs node) []
    return buildResults groups

/-- The three outcomes of `extract` after the conversation document has
been fetched (src/chatgpt-content.js:456-529): an exception escaping the
parse is caught as `EXTRACTION_FAILED`; an empty results list is the
successful `NO_SEARCH_QUERIES` report with zero totals; otherwise a
successful report with summed totals. -/
inductive ExtractOutcome where
  | success (results : List PromptResult)
      (totalShadowQueries totalCitations : Nat)
  | noSearchQueries
  | extractionFailed

/-- The post-fetch behaviour of `extract` on a materialized conversation
document.  `buildDebugSummary` (src/chatgpt-content.js:360-423), which
runs just before `parseConversation` inside the same `try`, is omitted:
its only throwing access is `node.message` on a nullish node, on which
`parseConversation` throws identically at its own `node.message`
(src/chatgpt-content.js:109), so the classified outcome is unchanged. -/
def extractOutcome (jp : String → Option JSVal) (data : JSVal) : ExtractOutcome :=
  match parseConversation jp data with
  | .error _ => .extractionFailed
  | .ok [] => .noSearchQueries
  | .ok rs =>
    .success rs
      (rs.foldl (fun sum r => sum + r.shadowQueries.length) 0)
      (rs.foldl (fun sum r => sum + r.citations.length) 0)

/-!
## Auxiliary bounds, predicates and concrete instances used by the theorems
-/

deriving instance DecidableEq for Except

/-- A `JSON.parse` model that always throws (no claim below that uses it
depends on the parse succeeding). -/
def jpNone : String → Option JSVal := fun _ => none

/-- The C1 failing input: a single-node mapping whose
`metadata.search_model_queries` holds the structured entry `{text: 5}`. -/
def convTextNum : JSVal :=
  .obj [("mapping", .obj [("n", .obj [("message", .obj [
    ("metadata", .obj [("search_model_queries",
      .arr [.obj [("text", .num 5)]])])])])])]

/-- A `JSON.parse` model for the C8 inputs: parses the fixed payload
string to an object carrying a visible-sourced query list. -/
def jpPayload : String → Option JSVal := fun s =>
  if s = "PAYLOAD" then some (.obj [("search_queries", .arr [.str "x"])]) else none

/-- A message whose content type is plain `"text"` but whose content
carries a raw result string that parses (under `jpPayload`) to an object
with a `search_queries` list. -/
def convPlainResult : JSVal :=
  .obj [("mapping", .obj [("n", .obj [("message", .obj [
    ("author", .obj [("role", .str "assistant")]),
    ("content", .obj [("content_type", .str "text"),
      ("result", .str "PAYLOAD")])])])])]

/-- A two-node conversation whose assistant message carries both
hidden-sourced and visible-sourced query lists with a case-insensitive
overlap ("beta" vs "Beta"). -/
def convQueries : JSVal := .obj [("mapping", .obj [
  ("u1", .obj [("message", .obj [
     ("author", .obj [("role", .str "user")]),
     ("content", .obj [("parts", .arr [.str "q prompt"])])])]),
  ("a1", .obj [("parent", .str "u1"), ("message", .obj [
     ("author", .obj [("role", .str "assistant")]),
     ("metadata", .obj [
        ("search_model_queries", .arr [.str "Alpha", .str "beta"]),
        ("search_queries", .arr [.str "Beta", .str "gamma"])])])])])]

/-- The report parsed from `convQueries`. -/
def resultQueries : PromptResult :=
  { userPrompt := "q prompt"
    shadowQueries := [⟨"Alpha", true⟩, ⟨"beta", true⟩, ⟨"gamma", false⟩]
    citations := []
    model := .str "unknown" }

/-- Two assistant nodes citing the same url with different titles, plus a
second distinct url (spec scenario 2 shape). -/
def convCitations : JSVal := .obj [("mapping", .obj [
  ("n1", .obj [("message", .obj [
     ("author", .obj [("role", .str "assistant")]),
     ("metadata", .obj [("content_references", .arr [
        .obj [("title", .str "T1"), ("url", .str "https://a.example/x")],
        .obj [("title", .str "T2"), ("url", .str "https://a.example/y")]])])])]),
  ("n2", .obj [("message", .obj [
     ("author", .obj [("role", .str "assistant")]),
     ("metadata", .obj [("content_references", .arr [
        .obj [("title", .str "OTHER"), ("url", .str "https://a.example/x")]])])])])])]

/-- The report parsed from `convCitations`: one group, the duplicate url
kept once with the first-encountered title, refIndex `1, 2`. -/
def resultCitations : PromptResult :=
  { userPrompt := "(unknown prompt)"
    shadowQueries := []
    citations :=
      [⟨.str "T1", .str "https://a.example/x", .str "Citation", 1⟩,
       ⟨.str "T2", .str "https://a.example/y", .str "Citation", 2⟩]
    model := .str "unknown" }

/-- The mapping keys not yet visited. -/
def keysLeft (m : JSVal) (visited : List String) : List String :=
  (propKeys m).filter fun x => !(decide (x ∈ visited))

/-- Fuel needed by the walk from a given configuration: one step for a
stopping id, two for an id outside the mapping, and one per unvisited
mapping key plus two otherwise. -/
def walkBound (m : JSVal) (visited : List String) : JSVal → Nat
  | .str id =>
    if id = "" ∨ id ∈ visited then 1
    else if id ∈ propKeys m then (keysLeft m visited).length + 2
    else 2
  | _ => 1

/-- A node at which the walk, were it to reach it, could take the
user-branch safely: if it carries a truthy message with role `user`,
its parts value is an array (so `filter` exists). -/
def nodeUserOk (node : JSVal) : Bool :=
  if node.truthy && (getPropRaw node "message").truthy &&
      (getPropOpt (getPropRaw (getPropRaw node "message") "author") "role").beq
        (.str "user") then
    (userPartsValue (getPropRaw node "message")).isArr
  else true

/-- Every node reachable by key lookup satisfies `nodeUserOk`. -/
def userPartsOk (m : JSVal) : Bool :=
  (propKeys m).all fun id => nodeUserOk (getPropRaw m id)

/-- A mapping whose only reachable node is user-authored but carries a
non-array `parts` value (`parts: 5`). -/
def mapBadParts : JSVal := .obj [("b", .obj [("message", .obj [
  ("author", .obj [("role", .str "user")]),
  ("content", .obj [("parts", .num 5)])])])]

/-- A mapping whose node `"b"` is user-authored with only non-string
content parts. -/
def mapBlankUser : JSVal := .obj [("b", .obj [("message", .obj [
  ("author", .obj [("role", .str "user")]),
  ("content", .obj [("parts", .arr [.obj []])])])])]

/-!
## Theorems for the specification claims
-/

/-- C9, first half used below: when a wrapped object exposes an array
`queries`, that array is returned regardless of `items`. -/
theorem normalizeQueryField_queries (field : JSVal) (qs : List JSVal)
    (ht : field.truthy = true) (ha : field.isArr = false)
    (hq : getPropRaw field "queries" = .arr qs) :
    normalizeQueryField field = qs := by
  cases field <;>
    simp_all [normalizeQueryField, JSVal.isArr, JSVal.truthy, hq]

/-- C9, second half used below: `items` is consulted exactly when the
`queries` property is not an array. -/
theorem normalizeQueryField_items (field v : JSVal) (is : List JSVal)
    (ht : field.truthy = true) (ha : field.isArr = false)
    (hq : getPropRaw field "queries" = v) (hv : v.isArr = false)
    (hi : getPropRaw field "items" = .arr is) :
    normalizeQueryField field = is := by
  cases field <;>
    (try simp_all [JSVal.isArr, JSVal.truthy]) <;>
    (simp only [normalizeQueryField, JSVal.truthy];
      rw [hq, hi]; cases v <;> simp_all [JSVal.isArr])

/-- C9: a wrapped-object value exposing both a `queries` array and an
`items` array yields the `queries` array; the `items` array is used only
when the `queries` property is absent or not an array. -/
theorem claim_C9_queries_over_items :
    (∀ (field : JSVal) (qs : List JSVal), field.truthy = true →
      field.isArr = false → getPropRaw field "queries" = .arr qs →
      normalizeQueryField field = qs) ∧
    (∀ (field v : JSVal) (is : List JSVal), field.truthy = true →
      field.isArr = false → getPropRaw field "queries" = v →
      v.isArr = false → getPropRaw field "items" = .arr is →
      normalizeQueryField field = is) :=
  ⟨normalizeQueryField_queries, normalizeQueryField_items⟩

/-- Witness for C9 at concrete wrapped objects. -/
theorem claim_C9_queries_over_items_witness :
    normalizeQueryField
        (.obj [("queries", .arr [.str "a"]), ("items", .arr [.str "b"])]) =
      [.str "a"] ∧
    normalizeQueryField
        (.obj [("queries", .str "no"), ("items", .arr [.str "b"])]) =
      [.str "b"] :=
  ⟨claim_C9_queries_over_items.1 _ _ rfl rfl rfl,
   claim_C9_queries_over_items.2 _ _ _ rfl rfl rfl rfl rfl⟩

/-- C3 counterexample: the claim says that when an earlier candidate key
holds a whitespace-only string and a later key holds a non-empty string,
the later key's trimmed value is emitted.  In the source the `||` chain
selects the first *truthy* value — and a whitespace-only string is truthy
— so `{text: "   ", query: "hello"}` contributes nothing: the claimed
output would be `.ok ["hello"]`. -/
theorem claim_C3_counterexample :
    extractQueryStringsE [.obj [("text", .str "   "), ("query", .str "hello")]] =
        .ok [] ∧
    extractQueryStringsE [.obj [("text", .str "   "), ("query", .str "hello")]] ≠
        .ok ["hello"] := by
  constructor
  · decide
  · decide

/-- C3 as amended: for a structured entry, the candidate keys `text`,
`query`, `q`, `search_query` are probed in order and the first *truthy*
(non-empty, possibly whitespace-only) value is selected — this is
`candidateValue`, whose default when no key matches is the empty string.
When the selected value is a string, the entry contributes its trimmed
form if that is non-blank and contributes nothing otherwise (even when a
later key holds a non-blank string), raising no error either way. -/
theorem claim_C3_first_truthy_candidate (q : JSVal) (rest : List JSVal)
    (s : String) (hq : q.isObjArr = true) (hc : candidateValue q = .str s) :
    extractQueryStringsE (q :: rest) =
      if jsTrim s = "" then extractQueryStringsE rest
      else (extractQueryStringsE rest).map (fun r => jsTrim s :: r) := by
  cases q with
  | obj fs =>
    simp only [extractQueryStringsE]
    rw [hc]
    cases h : extractQueryStringsE rest <;>
      simp [h, Except.map, bind, Except.bind, pure, Except.pure]
  | arr xs =>
    simp only [extractQueryStringsE]
    rw [hc]
    cases h : extractQueryStringsE rest <;>
      simp [h, Except.map, bind, Except.bind, pure, Except.pure]
  | null => simp [JSVal.isObjArr] at hq
  | undef => simp [JSVal.isObjArr] at hq
  | bool b => simp [JSVal.isObjArr] at hq
  | num n => simp [JSVal.isObjArr] at hq
  | str t => simp [JSVal.isObjArr] at hq

/-- Witness for C3 (amended) at a whitespace-only first candidate and at
a non-blank candidate. -/
theorem claim_C3_first_truthy_candidate_witness :
    extractQueryStringsE [.obj [("text", .str "   "), ("query", .str "hello")]] =
        .ok [] ∧
    extractQueryStringsE [.obj [("text", .str " hi ")]] = .ok ["hi"] := by
  constructor
  · have h := claim_C3_first_truthy_candidate
      (.obj [("text", .str "   "), ("query", .str "hello")]) [] "   " rfl rfl
    simpa using h
  · have h := claim_C3_first_truthy_candidate
      (.obj [("text", .str " hi ")]) [] " hi " rfl rfl
    rw [h]
    decide

/-- C2 counterexample: the claim says an absent node mapping is fatal
(`EXTRACTION_FAILED`).  In the source `parseConversation` returns `[]`
when `conversationData.mapping` is falsy (line 99), so `extract`
classifies the outcome as the *successful* `NO_SEARCH_QUERIES`, not as
`EXTRACTION_FAILED`: at the document `{}` (no `mapping` key) the outcome
is `noSearchQueries`. -/
theorem claim_C2_counterexample :
    extractOutcome jpNone (.obj []) = .noSearchQueries ∧
    extractOutcome jpNone (.obj []) ≠ .extractionFailed := by
  constructor
  · rfl
  · intro h
    have h0 : extractOutcome jpNone (.obj []) = .noSearchQueries := rfl
    rw [h0] at h
    exact ExtractOutcome.noConfusion h

/-- C2 as amended: a document whose node mapping is absent (falsy) or not
a keyed structure (no enumerable values) yields the same successful empty
zero-total `NO_SEARCH_QUERIES` outcome as a present-but-empty mapping;
`EXTRACTION_FAILED` arises only when an exception escapes the per-node
scan, never from the absence of the mapping itself. -/
theorem claim_C2_absent_mapping_is_no_queries (jp : String → Option JSVal)
    (data m : JSVal) (hd : data.isNullish = false)
    (hm : getPropRaw data "mapping" = m)
    (h : m.truthy = false ∨ jsValues m = []) :
    extractOutcome jp data = .noSearchQueries := by
  have hget : getPropE data "mapping" = .ok m := by simp [getPropE, hd, hm]
  rcases h with h | h
  · simp [extractOutcome, parseConversation, hget, h, bind, Except.bind,
      pure, Except.pure]
  · by_cases ht : m.truthy
    · simp [extractOutcome, parseConversation, hget, ht, h, bind, Except.bind,
        pure, Except.pure, buildResults]
    · simp [extractOutcome, parseConversation, hget, ht, bind, Except.bind,
        pure, Except.pure]

/-- Witness for C2 (amended): an absent mapping, a non-keyed (numeric)
mapping, and an empty-but-present mapping all classify as
`noSearchQueries`. -/
theorem claim_C2_absent_mapping_is_no_queries_witness :
    extractOutcome jpNone (.obj [("other", .num 1)]) = .noSearchQueries ∧
    extractOutcome jpNone (.obj [("mapping", .num 5)]) = .noSearchQueries ∧
    extractOutcome jpNone (.obj [("mapping", .obj [])]) = .noSearchQueries :=
  ⟨claim_C2_absent_mapping_is_no_queries jpNone _ _ rfl rfl (.inl rfl),
   claim_C2_absent_mapping_is_no_queries jpNone _ _ rfl rfl (.inr rfl),
   claim_C2_absent_mapping_is_no_queries jpNone _ _ rfl rfl (.inr rfl)⟩

/-- C1: the claim (and the spec's failure-semantics section) says every
per-node anomaly is absorbed locally as "no data" and never causes the
whole extraction to fail.  The code's own defensive style (optional
chaining, `|| {}` defaults, `try/catch` around every `JSON.parse`) shows
that intent, but `(q.text || q.query || q.q || q.search_query || '')`
followed by `.trim()` (src/chatgpt-content.js:89-90) is a slip: when the
first truthy candidate value is a non-string — e.g. the number `5` —
`.trim()` does not exist and the `TypeError` escapes `parseConversation`
into `extract`'s catch, so the whole extraction fails with
`EXTRACTION_FAILED` instead of producing a report. -/
theorem claim_C1_malformed_node_aborts :
    parseConversation jpNone convTextNum = .error () ∧
    extractOutcome jpNone convTextNum = .extractionFailed :=
  ⟨rfl, rfl⟩

/-- A falsy query field normalizes to the empty flat array. -/
theorem normalizeQueryField_falsy (v : JSVal) (h : v.truthy = false) :
    normalizeQueryField v = [] := by
  simp [normalizeQueryField, h]

/-- C8 counterexample: the claim quantifies over *every* message whose
content carries a parseable raw result string, but the source probes the
parsed value only when `content_type` is `tether_browsing_display` or
`tether_quote` (src/chatgpt-content.js:152).  At a message with content
type `"text"` and a parseable result carrying `search_queries: ["x"]`,
nothing is extracted — the parse yields no prompt group at all, whereas
the claim's merge would have produced one carrying the query `"x"`. -/
theorem claim_C8_counterexample :
    parseConversation jpPayload convPlainResult = .ok [] := rfl

/-- C8 as amended: for a message whose content type is
`tether_browsing_display` or `tether_quote` and whose content carries a
truthy raw result string, a successful parse is probed for
`search_model_queries` (hidden-sourced) and `search_queries`
(visible-sourced) and the extracted strings are appended to the node's
accumulated queries; a parse failure contributes nothing and raises no
error; any other content type leaves the accumulators untouched. -/
theorem claim_C8_tether_result_probe :
    (∀ (jp : String → Option JSVal) (message : JSVal) (sh vi : List String),
      (msgContentType message).beq (.str "tether_browsing_display") = false →
      (msgContentType message).beq (.str "tether_quote") = false →
      resultStep jp message sh vi = (sh, vi)) ∧
    (∀ (jp : String → Option JSVal) (message : JSVal) (sh vi : List String)
      (s : String),
      ((msgContentType message).beq (.str "tether_browsing_display") = true ∨
        (msgContentType message).beq (.str "tether_quote") = true) →
      msgContentResult message = .str s → s ≠ "" → jp s = none →
      resultStep jp message sh vi = (sh, vi)) ∧
    (∀ (jp : String → Option JSVal) (message v : JSVal) (sh vi : List String)
      (s : String) (ss vs : List String),
      ((msgContentType message).beq (.str "tether_browsing_display") = true ∨
        (msgContentType message).beq (.str "tether_quote") = true) →
      msgContentResult message = .str s → s ≠ "" → jp s = some v →
      v.isNullish = false →
      extractQueryStringsE (normalizeQueryField (getPropRaw v "search_model_queries")) =
        .ok ss →
      extractQueryStringsE (normalizeQueryField (getPropRaw v "search_queries")) =
        .ok vs →
      resultStep jp message sh vi = (sh ++ ss, vi ++ vs)) := by
  refine ⟨?_, ?_, ?_⟩
  · intro jp message sh vi h1 h2
    simp [resultStep, h1, h2]
  · intro jp message sh vi s hg hr hs hj
    rcases hg with hg | hg <;> simp [resultStep, hg, hr, hs, hj]
  · intro jp message v sh vi s ss vs hg hr hs hj hv hss hvs
    have hok : getPropE v "search_model_queries" =
        .ok (getPropRaw v "search_model_queries") := by simp [getPropE, hv]
    have main : (match getPropE v "search_model_queries" with
        | .error _ => (sh, vi)
        | .ok smq =>
          let step1 : List String × Bool :=
            if smq.truthy then
              match extractQueryStringsE (normalizeQueryField smq) with
              | .error _ => (sh, true)
              | .ok ss => (sh ++ ss, false)
            else (sh, false)
          if step1.2 then (step1.1, vi)
          else
            let sq := getPropRaw v "search_queries"
            if sq.truthy then
              match extractQueryStringsE (normalizeQueryField sq) with
              | .error _ => (step1.1, vi)
              | .ok vs => (step1.1, vi ++ vs)
            else (step1.1, vi)) = (sh ++ ss, vi ++ vs) := by
      rw [hok]
      have step1eq : (if (getPropRaw v "search_model_queries").truthy then
          match extractQueryStringsE
              (normalizeQueryField (getPropRaw v "search_model_queries")) with
          | .error _ => (sh, true)
          | .ok ss => (sh ++ ss, false)
          else (sh, false)) = (sh ++ ss, false) := by
        by_cases hsm : (getPropRaw v "search_model_queries").truthy
        · simp [hsm, hss]
        · have h0 : normalizeQueryField (getPropRaw v "search_model_queries") = [] :=
            normalizeQueryField_falsy _ (by simpa using hsm)
          rw [h0] at hss
          have : ss = [] := by
            have := hss
            simp [extractQueryStringsE] at this
            exact this
          simp [hsm, this]
      simp only [step1eq]
      by_cases hsq : (getPropRaw v "search_queries").truthy
      · simp [hsq, hvs]
      · have h0 : normalizeQueryField (getPropRaw v "search_queries") = [] :=
          normalizeQueryField_falsy _ (by simpa using hsq)
        rw [h0] at hvs
        have : vs = [] := by
          have := hvs
          simp [extractQueryStringsE] at this
          exact this
        simp [hsq, this]
    rcases hg with hg | hg <;>
      simpa [resultStep, hg, hr, hs, hj] using main

/-- Witness for C8 (amended) at a `tether_quote` message with the
`jpPayload` parse, at the same message under a failing parse, and at a
plain-text message. -/
theorem claim_C8_tether_result_probe_witness :
    resultStep jpPayload
        (.obj [("content", .obj [("content_type", .str "tether_quote"),
          ("result", .str "PAYLOAD")])]) ["h0"] ["v0"] = (["h0"], ["v0", "x"]) ∧
    resultStep jpNone
        (.obj [("content", .obj [("content_type", .str "tether_quote"),
          ("result", .str "PAYLOAD")])]) ["h0"] ["v0"] = (["h0"], ["v0"]) ∧
    resultStep jpPayload
        (.obj [("content", .obj [("content_type", .str "text"),
          ("result", .str "PAYLOAD")])]) ["h0"] ["v0"] = (["h0"], ["v0"]) := by
  refine ⟨?_, ?_, ?_⟩
  · have h := claim_C8_tether_result_probe.2.2 jpPayload
      (.obj [("content", .obj [("content_type", .str "tether_quote"),
        ("result", .str "PAYLOAD")])])
      (.obj [("search_queries", .arr [.str "x"])])
      ["h0"] ["v0"] "PAYLOAD" [] ["x"]
      (.inr rfl) rfl (by decide) rfl rfl (by decide) (by decide)
    simpa using h
  · exact claim_C8_tether_result_probe.2.1 jpNone _ ["h0"] ["v0"] "PAYLOAD"
      (.inr rfl) rfl (by decide) rfl
  · exact claim_C8_tether_result_probe.1 jpPayload _ ["h0"] ["v0"] rfl rfl

/-- The query-dedup pass only grows the seen-set. -/
theorem queryPass_seen_subset (hidden : Bool) :
    ∀ (ts seen : List String) (acc : List ShadowQuery),
      seen ⊆ (queryPass hidden ts seen acc).1 := by
  intro ts
  induction ts with
  | nil => intro seen acc; simp [queryPass]
  | cons t ts ih =>
    intro seen acc
    rw [queryPass]
    by_cases h : jsToLower t ∈ seen
    · simpa [h] using ih seen acc
    · simp only [h, if_false]
      exact fun x hx => ih _ _ (List.mem_cons_of_mem _ hx)

/-- The query-dedup pass only appends to the accumulator. -/
theorem queryPass_acc_prefix (hidden : Bool) :
    ∀ (ts seen : List String) (acc : List ShadowQuery),
      ∃ Δ, (queryPass hidden ts seen acc).2 = acc ++ Δ := by
  intro ts
  induction ts with
  | nil => intro seen acc; exact ⟨[], by simp [queryPass]⟩
  | cons t ts ih =>
    intro seen acc
    rw [queryPass]
    by_cases h : jsToLower t ∈ seen
    · simpa [h] using ih seen acc
    · simp only [h, if_false]
      obtain ⟨Δ, hΔ⟩ := ih (jsToLower t :: seen) (acc ++ [⟨t, hidden⟩])
      exact ⟨⟨t, hidden⟩ :: Δ, by simpa using hΔ⟩

/-- Invariant of the query-dedup pass: every emitted entry's lowercase
text is in the final seen-set, and the emitted entries are pairwise
distinct case-insensitively. -/
theorem queryPass_inv (hidden : Bool) :
    ∀ (ts seen : List String) (acc : List ShadowQuery),
      (∀ e ∈ acc, jsToLower e.text ∈ seen) →
      acc.Pairwise (fun a b => jsToLower a.text ≠ jsToLower b.text) →
      (∀ e ∈ (queryPass hidden ts seen acc).2,
        jsToLower e.text ∈ (queryPass hidden ts seen acc).1) ∧
      (queryPass hidden ts seen acc).2.Pairwise
        (fun a b => jsToLower a.text ≠ jsToLower b.text) := by
  intro ts
  induction ts with
  | nil => intro seen acc h1 h2; simpa [queryPass] using ⟨h1, h2⟩
  | cons t ts ih =>
    intro seen acc h1 h2
    rw [queryPass]
    by_cases h : jsToLower t ∈ seen
    · simpa [h] using ih seen acc h1 h2
    · simp only [h, if_false]
      apply ih
      · intro e he
        rcases List.mem_append.mp he with he | he
        · exact List.mem_cons_of_mem _ (h1 e he)
        · simp only [List.mem_singleton] at he
          subst he
          exact List.mem_cons_self _ _
      · rw [List.pairwise_append]
        refine ⟨h2, by simp, ?_⟩
        intro a ha b hb
        simp only [List.mem_singleton] at hb
        subst hb
        intro hab
        exact h (hab ▸ h1 a ha)

/-- Every processed string's lowercase form ends up in the seen-set. -/
theorem queryPass_cover (hidden : Bool) :
    ∀ (ts seen : List String) (acc : List ShadowQuery) (t : String),
      t ∈ ts → jsToLower t ∈ (queryPass hidden ts seen acc).1 := by
  intro ts
  induction ts with
  | nil => intro seen acc t ht; cases ht
  | cons u ts ih =>
    intro seen acc t ht
    rw [queryPass]
    by_cases h : jsToLower u ∈ seen
    · simp only [h, if_true]
      rcases List.mem_cons.mp ht with rfl | ht
      · exact queryPass_seen_subset hidden ts seen acc h
      · exact ih seen acc t ht
    · simp only [h, if_false]
      rcases List.mem_cons.mp ht with rfl | ht
      · exact queryPass_seen_subset hidden ts _ _ (List.mem_cons_self _ _)
      · exact ih _ _ t ht

/-- Every lowercase key in the final seen-set is witnessed by an emitted
entry carrying the pass's hidden flag, provided the same held of the
initial seen-set. -/
theorem queryPass_seen_entry (hidden : Bool) :
    ∀ (ts seen : List String) (acc : List ShadowQuery),
      (∀ l ∈ seen, ∃ e ∈ acc, jsToLower e.text = l ∧ e.hidden = hidden) →
      ∀ l ∈ (queryPass hidden ts seen acc).1,
        ∃ e ∈ (queryPass hidden ts seen acc).2,
          jsToLower e.text = l ∧ e.hidden = hidden := by
  intro ts
  induction ts with
  | nil => intro seen acc h l hl; simp only [queryPass] at hl ⊢; exact h l hl
  | cons t ts ih =>
    intro seen acc h l hl
    rw [queryPass] at hl ⊢
    by_cases hmem : jsToLower t ∈ seen
    · simp only [hmem, if_true] at hl ⊢
      exact ih seen acc h l hl
    · simp only [hmem, if_false] at hl ⊢
      apply ih _ _ _ l hl
      intro l' hl'
      rcases List.mem_cons.mp hl' with rfl | hl'
      · exact ⟨⟨t, hidden⟩, by simp⟩
      · obtain ⟨e, he, het, heh⟩ := h l' hl'
        exact ⟨e, List.mem_append_left _ he, het, heh⟩

/-- In a case-insensitively pairwise-distinct list, two members with the
same lowercase text are the same member. -/
theorem pairwise_lower_unique :
    ∀ (l : List ShadowQuery),
      l.Pairwise (fun a b => jsToLower a.text ≠ jsToLower b.text) →
      ∀ e ∈ l, ∀ e' ∈ l, jsToLower e.text = jsToLower e'.text → e = e' := by
  intro l
  induction l with
  | nil => intro _ e he; cases he
  | cons a l ih =>
    intro hp e he e' he' heq
    rw [List.pairwise_cons] at hp
    rcases List.mem_cons.mp he with he0 | he0
    · rcases List.mem_cons.mp he' with he1 | he1
      · rw [he0, he1]
      · exact absurd (by rw [← he0]; exact heq) (hp.1 e' he1)
    · rcases List.mem_cons.mp he' with he1 | he1
      · exact absurd (by rw [← he1]; exact heq.symm) (hp.1 e he0)
      · exact ih hp.2 e he0 e' he1 heq

/-- Every successful parse result is the second pass applied to some
accumulated bucket list. -/
theorem parseConversation_ok_shape (jp : String → Option JSVal)
    (data : JSVal) (results : List PromptResult)
    (h : parseConversation jp data = .ok results) :
    ∃ gs, results = buildResults gs := by
  rw [parseConversation] at h
  cases hE : getPropE data "mapping" with
  | error e => rw [hE] at h; simp [Bind.bind, Except.bind] at h
  | ok m =>
    rw [hE] at h
    simp only [Bind.bind, Except.bind] at h
    by_cases ht : m.truthy
    · simp only [ht, not_true, if_false] at h
      cases hF : (jsValues m).foldlM
          (fun gs node => processNode jp data m gs node) [] with
      | error e => rw [hF] at h; simp at h
      | ok gs =>
        rw [hF] at h
        simp only [pure, Except.pure, Except.ok.injEq] at h
        exact ⟨gs, h.symm⟩
    · rw [if_pos ht] at h
      simp only [pure, Except.pure, Except.ok.injEq] at h
      exact ⟨[], by rw [← h]; rfl⟩

/-- Every entry of the second pass's output is built from some bucket by
the two dedup passes. -/
theorem buildResults_mem (r : PromptResult) :
    ∀ gs : List (String × PromptGroup), r ∈ buildResults gs →
      ∃ k g, (k, g) ∈ gs ∧
        r = { userPrompt := k, shadowQueries := dedupQueries g.shadow g.visible,
              citations := dedupCitations g.citations, model := g.model } := by
  intro gs
  induction gs with
  | nil => intro h; cases h
  | cons kg gs ih =>
    obtain ⟨k, g⟩ := kg
    intro h
    rw [buildResults] at h
    by_cases hc : (dedupQueries g.shadow g.visible).isEmpty = false ∨
        (dedupCitations g.citations).isEmpty = false
    · have hcond : (!(dedupQueries g.shadow g.visible).isEmpty ||
          !(dedupCitations g.citations).isEmpty) = true := by
        rcases hc with hc | hc <;> simp [hc]
      rw [if_pos hcond] at h
      rcases List.mem_cons.mp h with rfl | h
      · exact ⟨k, g, List.mem_cons_self _ _, rfl⟩
      · obtain ⟨k', g', hmem, hr⟩ := ih h
        exact ⟨k', g', List.mem_cons_of_mem _ hmem, hr⟩
    · push_neg at hc
      have hcond : (!(dedupQueries g.shadow g.visible).isEmpty ||
          !(dedupCitations g.citations).isEmpty) = false := by
        simp only [Bool.or_eq_false_iff, Bool.not_eq_false']
        constructor
        · cases hq : (dedupQueries g.shadow g.visible).isEmpty
          · exact absurd hq hc.1
          · rfl
        · cases hq : (dedupCitations g.citations).isEmpty
          · exact absurd hq hc.2
          · rfl
      rw [if_neg (by simp [hcond])] at h
      obtain ⟨k', g', hmem, hr⟩ := ih h
      exact ⟨k', g', List.mem_cons_of_mem _ hmem, hr⟩

/-- C6: in every prompt group of a successfully parsed report, no two
`shadowQueries` entries have case-insensitively equal text. -/
theorem claim_C6_query_uniqueness (jp : String → Option JSVal)
    (data : JSVal) (results : List PromptResult)
    (h : parseConversation jp data = .ok results) :
    ∀ r ∈ results, r.shadowQueries.Pairwise
      (fun a b => jsToLower a.text ≠ jsToLower b.text) := by
  intro r hr
  obtain ⟨gs, rfl⟩ := parseConversation_ok_shape jp data results h
  obtain ⟨k, g, _, rfl⟩ := buildResults_mem r gs hr
  show (dedupQueries g.shadow g.visible).Pairwise _
  rw [dedupQueries]
  have h1 := queryPass_inv true g.shadow [] [] (by simp) (by simp)
  exact (queryPass_inv false g.visible _ _ h1.1 h1.2).2

/-- Witness for C6 at `convQueries`. -/
theorem claim_C6_query_uniqueness_witness :
    List.Pairwise (fun a b => jsToLower a.text ≠ jsToLower b.text)
      resultQueries.shadowQueries :=
  claim_C6_query_uniqueness jpNone convQueries [resultQueries] rfl
    resultQueries (List.mem_singleton.mpr rfl)

/-- `dedupQueries` unfolded to the two sequential passes. -/
theorem dedupQueries_eq (sh vi : List String) :
    dedupQueries sh vi =
      (queryPass false vi (queryPass true sh [] []).1
        (queryPass true sh [] []).2).2 := rfl

/-- C4: the final `shadowQueries` of every group are the two-pass dedup
of the bucket's accumulated strings, and whenever a text was accumulated
from a hidden-sourced field anywhere in the bucket, exactly one entry
with that text (case-insensitively) survives and it is hidden — no
matter where (or whether) the text also appears among the
visible-sourced strings. -/
theorem claim_C4_hidden_precedence :
    (∀ (jp : String → Option JSVal) (data : JSVal)
      (results : List PromptResult),
      parseConversation jp data = .ok results →
      ∀ r ∈ results, ∃ sh vi, r.shadowQueries = dedupQueries sh vi) ∧
    (∀ (sh vi : List String) (t : String),
      jsToLower t ∈ sh.map jsToLower →
      ∃ e ∈ dedupQueries sh vi,
        jsToLower e.text = jsToLower t ∧ e.hidden = true ∧
        ∀ e' ∈ dedupQueries sh vi, jsToLower e'.text = jsToLower t → e' = e) := by
  constructor
  · intro jp data results h r hr
    obtain ⟨gs, rfl⟩ := parseConversation_ok_shape jp data results h
    obtain ⟨k, g, _, rfl⟩ := buildResults_mem r gs hr
    exact ⟨g.shadow, g.visible, rfl⟩
  · intro sh vi t ht
    obtain ⟨u, hu, hul⟩ := List.mem_map.mp ht
    have hcov : jsToLower u ∈ (queryPass true sh [] []).1 :=
      queryPass_cover true sh [] [] u hu
    obtain ⟨e, he1, het, heh⟩ :=
      queryPass_seen_entry true sh [] [] (by simp) (jsToLower u) hcov
    obtain ⟨Δ, hΔ⟩ := queryPass_acc_prefix false vi
      (queryPass true sh [] []).1 (queryPass true sh [] []).2
    have hefin : e ∈ dedupQueries sh vi := by
      rw [dedupQueries_eq, hΔ]
      exact List.mem_append_left _ he1
    have hpair : (dedupQueries sh vi).Pairwise
        (fun a b => jsToLower a.text ≠ jsToLower b.text) := by
      rw [dedupQueries_eq]
      have h1 := queryPass_inv true sh [] [] (by simp) (by simp)
      exact (queryPass_inv false vi _ _ h1.1 h1.2).2
    refine ⟨e, hefin, het.trans hul, heh, ?_⟩
    intro e' he' het'
    exact pairwise_lower_unique _ hpair e' he' e hefin (het'.trans (het.trans hul).symm)

/-- Witness for C4: `"Beta"` was accumulated hidden-sourced as `"beta"`,
so exactly one case-insensitive `"beta"` entry survives and it is
hidden; and the parsed report's group is a two-pass dedup. -/
theorem claim_C4_hidden_precedence_witness :
    (∃ sh vi, resultQueries.shadowQueries = dedupQueries sh vi) ∧
    (∃ e ∈ dedupQueries ["Alpha", "beta"] ["Beta", "gamma"],
      jsToLower e.text = jsToLower "Beta" ∧ e.hidden = true ∧
      ∀ e' ∈ dedupQueries ["Alpha", "beta"] ["Beta", "gamma"],
        jsToLower e'.text = jsToLower "Beta" → e' = e) :=
  ⟨claim_C4_hidden_precedence.1 jpNone convQueries [resultQueries] rfl
      resultQueries (List.mem_singleton.mpr rfl),
   claim_C4_hidden_precedence.2 ["Alpha", "beta"] ["Beta", "gamma"] "Beta"
      (by decide)⟩

/-- Assigned reference indices are the contiguous range starting at `n`. -/
theorem assignRefs_map_refIndex :
    ∀ (l : List Citation) (n : Nat),
      (assignRefs n l).map (fun c => c.refIndex) = List.range' n l.length := by
  intro l
  induction l with
  | nil => intro n; rfl
  | cons c cs ih =>
    intro n
    simp only [assignRefs, List.map_cons, List.length_cons, List.range'_succ]
    rw [ih]

/-- `assignRefs` preserves length. -/
theorem assignRefs_length :
    ∀ (l : List Citation) (n : Nat), (assignRefs n l).length = l.length := by
  intro l
  induction l with
  | nil => intro n; rfl
  | cons c cs ih => intro n; simp [assignRefs, ih]

/-- The citation-dedup loop equals first-occurrence-per-key selection (in
first-seen order, keys already in the seen-set dropped) followed by
contiguous `refIndex` assignment. -/
theorem dedupCitationsGo_eq :
    ∀ (cs : List Citation) (seen : List JSVal) (acc : List Citation),
      dedupCitationsGo seen acc cs =
        acc ++ assignRefs (acc.length + 1)
          (firstsByKey (cs.filter fun c => !(memKey seen (citKey c)))) := by
  intro cs
  induction cs with
  | nil => intro seen acc; simp [dedupCitationsGo, firstsByKey, assignRefs]
  | cons c cs ih =>
    intro seen acc
    rw [dedupCitationsGo]
    by_cases hk : memKey seen (citKey c)
    · rw [if_pos hk]
      rw [ih seen acc]
      simp [List.filter_cons, hk]
    · rw [if_neg hk]
      rw [ih]
      have hfilter : (cs.filter fun d => !(memKey (citKey c :: seen) (citKey d))) =
          ((cs.filter fun d => !(memKey seen (citKey d))).filter
            fun d => !((citKey c).beq (citKey d))) := by
        rw [List.filter_filter]
        apply List.filter_congr
        intro d _
        simp [memKey, List.any_cons, Bool.not_or, Bool.and_comm]
      have hcons : ((c :: cs).filter fun d => !(memKey seen (citKey d))) =
          c :: (cs.filter fun d => !(memKey seen (citKey d))) := by
        simp [List.filter_cons, hk]
      rw [hcons, firstsByKey, ← hfilter]
      simp [assignRefs, List.length_append]

/-- `dedupCitations` characterized: first occurrence per key
(`url` if truthy else `title`) wins in first-seen order, then `refIndex`
is assigned contiguously from 1. -/
theorem dedupCitations_eq (raw : List Citation) :
    dedupCitations raw = assignRefs 1 (firstsByKey raw) := by
  rw [dedupCitations, dedupCitationsGo_eq]
  have : (raw.filter fun c => !(memKey [] (citKey c))) = raw := by
    simp [memKey]
  rw [this]
  rfl

/-- C5: every group's citations in a successfully parsed report are the
dedup of some accumulated citation list, the dedup keeps the first
occurrence per key (`url` if non-empty/truthy, else `title`) in
first-seen order (`firstsByKey`), and the resulting `refIndex` values are
exactly the contiguous range `1..N` in order. -/
theorem claim_C5_citation_refindex :
    (∀ (jp : String → Option JSVal) (data : JSVal)
      (results : List PromptResult),
      parseConversation jp data = .ok results →
      ∀ r ∈ results, ∃ raw, r.citations = dedupCitations raw) ∧
    (∀ raw : List Citation, dedupCitations raw = assignRefs 1 (firstsByKey raw)) ∧
    (∀ raw : List Citation,
      (dedupCitations raw).map (fun c => c.refIndex) =
        List.range' 1 (dedupCitations raw).length) := by
  refine ⟨?_, dedupCitations_eq, ?_⟩
  · intro jp data results h r hr
    obtain ⟨gs, rfl⟩ := parseConversation_ok_shape jp data results h
    obtain ⟨k, g, _, rfl⟩ := buildResults_mem r gs hr
    exact ⟨g.citations, rfl⟩
  · intro raw
    rw [dedupCitations_eq, assignRefs_map_refIndex, assignRefs_length]

/-- Witness for C5 at `convCitations` and at a concrete duplicate-keyed
citation list. -/
theorem claim_C5_citation_refindex_witness :
    (∃ raw, resultCitations.citations = dedupCitations raw) ∧
    dedupCitations
        [⟨.str "A", .str "u", .str "t", 7⟩, ⟨.str "B", .str "u", .str "t", 9⟩] =
      assignRefs 1 (firstsByKey
        [⟨.str "A", .str "u", .str "t", 7⟩, ⟨.str "B", .str "u", .str "t", 9⟩]) ∧
    (dedupCitations
        [⟨.str "A", .str "u", .str "t", 7⟩, ⟨.str "B", .str "u", .str "t", 9⟩]).map
        (fun c => c.refIndex) =
      List.range' 1 (dedupCitations
        [⟨.str "A", .str "u", .str "t", 7⟩, ⟨.str "B", .str "u", .str "t", 9⟩]).length :=
  ⟨claim_C5_citation_refindex.1 jpNone convCitations [resultCitations] rfl
      resultCitations (List.mem_singleton.mpr rfl),
   claim_C5_citation_refindex.2.1 _,
   claim_C5_citation_refindex.2.2 _⟩

/-- Keys absent from an association list look up to `none`. -/
theorem lookup_eq_none_of_not_mem (fs : List (String × JSVal)) (k : String)
    (h : k ∉ fs.map Prod.fst) : fs.lookup k = none := by
  rw [List.lookup_eq_none_iff]
  intro p hp
  simp only [bne_iff_ne, ne_eq]
  intro hk
  exact h (hk ▸ List.mem_map_of_mem Prod.fst hp)

/-- `strIndex?` only accepts the canonical decimal form. -/
theorem strIndex?_some (k : String) (i : Nat) (h : strIndex? k = some i) :
    toString i = k := by
  rw [strIndex?] at h
  cases hn : strToNat? k with
  | none => rw [hn] at h; cases h
  | some j =>
    rw [hn] at h
    by_cases ht : toString j = k
    · simp only [ht, if_true, Option.some.injEq] at h
      rw [← h]
      exact ht
    · simp only [ht, if_false] at h
      cases h

/-- At an id outside `propKeys`, the mapping lookup yields a value with a
falsy `message` and an `undefined` `parent`: the walk skips it and the
next current id is `undefined`. -/
theorem getPropRaw_outside (m : JSVal) (id : String) (h : id ∉ propKeys m) :
    (getPropRaw (getPropRaw m id) "message").truthy = false ∧
    getPropOpt (getPropRaw m id) "parent" = .undef := by
  cases m with
  | null => exact ⟨rfl, rfl⟩
  | undef => exact ⟨rfl, rfl⟩
  | bool b => exact ⟨rfl, rfl⟩
  | num n => exact ⟨rfl, rfl⟩
  | obj fs =>
    have hkeys : id ∉ fs.map Prod.fst := by
      intro hmem
      exact h (by simpa [propKeys, List.mem_dedup] using hmem)
    have hnode : getPropRaw (.obj fs) id = .undef := by
      simp [getPropRaw, lookup_eq_none_of_not_mem fs id hkeys]
    rw [hnode]
    exact ⟨rfl, rfl⟩
  | arr xs =>
    by_cases hl : id = "length"
    · subst hl
      have hnode : getPropRaw (.arr xs) "length" = .num xs.length := by
        simp [getPropRaw]
      rw [hnode]
      exact ⟨rfl, rfl⟩
    · have hnode : getPropRaw (.arr xs) id = .undef := by
        rw [getPropRaw, if_neg hl]
        cases hs : strIndex? id with
        | none => rfl
        | some i =>
          cases hg : xs.get? i with
          | none => rw [List.get?_eq_getElem?] at hg; simp [hg]
          | some v =>
            exfalso
            apply h
            have hi : i < xs.length := List.get?_eq_some.mp hg |>.1
            simp only [propKeys, List.mem_map]
            exact ⟨i, List.mem_range.mpr hi, strIndex?_some id i hs⟩
      rw [hnode]
      exact ⟨rfl, rfl⟩
  | str s =>
    by_cases hl : id = "length"
    · subst hl
      have hnode : getPropRaw (.str s) "length" = .num s.length := by
        simp [getPropRaw]
      rw [hnode]
      exact ⟨rfl, rfl⟩
    · have hnode : getPropRaw (.str s) id = .undef := by
        rw [getPropRaw, if_neg hl]
        cases hs : strIndex? id with
        | none => rfl
        | some i =>
          cases hg : s.data.get? i with
          | none => rw [List.get?_eq_getElem?] at hg; simp [hg]
          | some c =>
            exfalso
            apply h
            have hi : i < s.data.length := List.get?_eq_some.mp hg |>.1
            simp only [propKeys, List.mem_map]
            exact ⟨i, List.mem_range.mpr hi, strIndex?_some id i hs⟩
      rw [hnode]
      exact ⟨rfl, rfl⟩

/-- Filtering out a present element strictly shrinks a list. -/
theorem length_filter_ne_lt (l : List String) (a : String) (h : a ∈ l) :
    (l.filter fun x => !(decide (x = a))).length < l.length := by
  induction l with
  | nil => cases h
  | cons b l ih =>
    rcases List.mem_cons.mp h with rfl | h2
    · simp only [List.filter_cons]
      rw [if_neg (by simp)]
      exact Nat.lt_succ_of_le (List.length_filter_le _ _)
    · by_cases hb : b = a
      · subst hb
        simp only [List.filter_cons]
        rw [if_neg (by simp)]
        exact Nat.lt_succ_of_le (List.length_filter_le _ _)
      · simp only [List.filter_cons]
        rw [if_pos (by simpa using hb)]
        simpa using ih h2

/-- Visiting a fresh mapping key strictly shrinks the unvisited keys. -/
theorem keysLeft_lt (m : JSVal) (visited : List String) (id : String)
    (hk : id ∈ propKeys m) (hv : id ∉ visited) :
    (keysLeft m (id :: visited)).length < (keysLeft m visited).length := by
  have heq : keysLeft m (id :: visited) =
      (keysLeft m visited).filter fun x => !(decide (x = id)) := by
    rw [keysLeft, keysLeft, List.filter_filter]
    apply List.filter_congr
    intro x _
    simp [List.mem_cons, Bool.and_comm]
  rw [heq]
  apply length_filter_ne_lt
  rw [keysLeft, List.mem_filter]
  exact ⟨hk, by simpa using hv⟩

/-- The fuel bound from any configuration is at most the unvisited-keys
count plus two. -/
theorem walkBound_le (m : JSVal) (visited : List String) (cur : JSVal) :
    walkBound m visited cur ≤ (keysLeft m visited).length + 2 := by
  cases cur <;> simp only [walkBound] <;> (try split) <;> (try split) <;> omega

/-- Termination of the walk: from any configuration, `walkBound` fuel
suffices (the result is not the out-of-fuel marker). -/
theorem findLoopV_isSome :
    ∀ (fuel : Nat) (m : JSVal) (visited : List String) (cur : JSVal),
      walkBound m visited cur ≤ fuel →
      (findLoopV m fuel visited cur).isSome = true := by
  intro fuel
  induction fuel with
  | zero =>
    intro m visited cur hb
    exfalso
    cases cur <;> simp only [walkBound] at hb <;> revert hb <;> (try split) <;>
      (try split) <;> omega
  | succ fuel ih =>
    intro m visited cur hb
    cases cur with
    | str id =>
      rw [findLoopV]
      by_cases h0 : id = ""
      · rw [if_pos h0]; rfl
      · rw [if_neg h0]
        by_cases h1 : id ∈ visited
        · rw [if_pos h1]; rfl
        · rw [if_neg h1]
          have hb' : walkBound m visited (.str id) = (if id ∈ propKeys m then
              (keysLeft m visited).length + 2 else 2) := by
            simp [walkBound, h0, h1]
          by_cases hcond : ¬ (getPropRaw m id).truthy ∨
              ¬ (getPropRaw (getPropRaw m id) "message").truthy
          · rw [if_pos hcond]
            apply ih
            by_cases hk : id ∈ propKeys m
            · calc walkBound m (id :: visited) (getPropOpt (getPropRaw m id) "parent")
                  ≤ (keysLeft m (id :: visited)).length + 2 := walkBound_le _ _ _
                _ ≤ fuel := by
                    have h2 := keysLeft_lt m visited id hk h1
                    rw [hb', if_pos hk] at hb
                    omega
            · have hout := getPropRaw_outside m id hk
              rw [hout.2]
              show walkBound m (id :: visited) .undef ≤ fuel
              rw [hb', if_neg hk] at hb
              simp only [walkBound]
              omega
          · rw [if_neg hcond]
            push_neg at hcond
            by_cases hk : id ∈ propKeys m
            · by_cases hrole : (getPropOpt
                  (getPropRaw (getPropRaw m id) "message" |> (getPropRaw · "author"))
                  "role").beq (.str "user") = true
              · rw [if_pos (by simpa using hrole)]; rfl
              · rw [if_neg (by simpa using hrole)]
                apply ih
                calc walkBound m (id :: visited) (getPropRaw (getPropRaw m id) "parent")
                    ≤ (keysLeft m (id :: visited)).length + 2 := walkBound_le _ _ _
                  _ ≤ fuel := by
                      have h2 := keysLeft_lt m visited id hk h1
                      rw [hb', if_pos hk] at hb
                      omega
            · exfalso
              have hout := getPropRaw_outside m id hk
              rw [hout.1] at hcond
              exact Bool.false_ne_true hcond.2
    | null => simp [findLoopV]
    | undef => simp [findLoopV]
    | bool b => simp [findLoopV]
    | num n => simp [findLoopV]
    | arr xs => simp [findLoopV]
    | obj fs => simp [findLoopV]

/-- The walk never revisits: the final `visited` set is duplicate-free
whenever the initial one is (each iteration adds only a fresh id). -/
theorem findLoopV_nodup :
    ∀ (fuel : Nat) (m : JSVal) (visited : List String) (cur : JSVal)
      (r : Except Unit String) (vf : List String),
      findLoopV m fuel visited cur = some (r, vf) → visited.Nodup → vf.Nodup := by
  intro fuel
  induction fuel with
  | zero => intro m visited cur r vf h; cases h
  | succ fuel ih =>
    intro m visited cur r vf h hn
    cases cur with
    | str id =>
      rw [findLoopV] at h
      by_cases h0 : id = ""
      · rw [if_pos h0] at h
        cases h
        exact hn
      · rw [if_neg h0] at h
        by_cases h1 : id ∈ visited
        · rw [if_pos h1] at h
          cases h
          exact hn
        · rw [if_neg h1] at h
          have hn' : (id :: visited).Nodup := List.Nodup.cons h1 hn
          by_cases hcond : ¬ (getPropRaw m id).truthy ∨
              ¬ (getPropRaw (getPropRaw m id) "message").truthy
          · rw [if_pos hcond] at h
            exact ih m _ _ r vf h hn'
          · rw [if_neg hcond] at h
            by_cases hrole : (getPropOpt
                (getPropRaw (getPropRaw m id) "message" |> (getPropRaw · "author"))
                "role").beq (.str "user") = true
            · rw [if_pos (by simpa using hrole)] at h
              cases h
              exact hn'
            · rw [if_neg (by simpa using hrole)] at h
              exact ih m _ _ r vf h hn'
    | null =>
      simp only [findLoopV, Option.some.injEq, Prod.mk.injEq] at h
      rw [← h.2]
      exact hn
    | undef =>
      simp only [findLoopV, Option.some.injEq, Prod.mk.injEq] at h
      rw [← h.2]
      exact hn
    | bool b =>
      simp only [findLoopV, Option.some.injEq, Prod.mk.injEq] at h
      rw [← h.2]
      exact hn
    | num n =>
      simp only [findLoopV, Option.some.injEq, Prod.mk.injEq] at h
      rw [← h.2]
      exact hn
    | arr xs =>
      simp only [findLoopV, Option.some.injEq, Prod.mk.injEq] at h
      rw [← h.2]
      exact hn
    | obj fs =>
      simp only [findLoopV, Option.some.injEq, Prod.mk.injEq] at h
      rw [← h.2]
      exact hn

/-- Under `userPartsOk`, a completed walk never throws: it returns a
resolved prompt text or the sentinel. -/
theorem findLoopV_ok :
    ∀ (fuel : Nat) (m : JSVal) (visited : List String) (cur : JSVal)
      (r : Except Unit String) (vf : List String),
      userPartsOk m = true → findLoopV m fuel visited cur = some (r, vf) →
      ∃ s, r = .ok s := by
  intro fuel
  induction fuel with
  | zero => intro m visited cur r vf _ h; cases h
  | succ fuel ih =>
    intro m visited cur r vf hok h
    cases cur with
    | str id =>
      rw [findLoopV] at h
      by_cases h0 : id = ""
      · rw [if_pos h0] at h
        cases h
        exact ⟨unknownPrompt, rfl⟩
      · rw [if_neg h0] at h
        by_cases h1 : id ∈ visited
        · rw [if_pos h1] at h
          cases h
          exact ⟨unknownPrompt, rfl⟩
        · rw [if_neg h1] at h
          by_cases hcond : ¬ (getPropRaw m id).truthy ∨
              ¬ (getPropRaw (getPropRaw m id) "message").truthy
          · rw [if_pos hcond] at h
            exact ih m _ _ r vf hok h
          · rw [if_neg hcond] at h
            push_neg at hcond
            by_cases hrole : (getPropOpt
                (getPropRaw (getPropRaw m id) "message" |> (getPropRaw · "author"))
                "role").beq (.str "user") = true
            · rw [if_pos (by simpa using hrole)] at h
              by_cases hk : id ∈ propKeys m
              · have hall := (List.all_eq_true.mp hok) id hk
                rw [nodeUserOk] at hall
                rw [if_pos (by
                  simp only [Bool.and_eq_true]
                  exact ⟨⟨hcond.1, hcond.2⟩, hrole⟩)] at hall
                cases hp : userPartsValue (getPropRaw (getPropRaw m id) "message") with
                | arr ps =>
                  rw [hp] at h
                  cases h
                  exact ⟨_, rfl⟩
                | null => rw [hp] at hall; cases hall
                | undef => rw [hp] at hall; cases hall
                | bool b => rw [hp] at hall; cases hall
                | num n => rw [hp] at hall; cases hall
                | str s => rw [hp] at hall; cases hall
                | obj fs => rw [hp] at hall; cases hall
              · exfalso
                have hout := getPropRaw_outside m id hk
                rw [hout.1] at hcond
                exact Bool.false_ne_true hcond.2
            · rw [if_neg (by simpa using hrole)] at h
              exact ih m _ _ r vf hok h
    | null =>
      simp only [findLoopV, Option.some.injEq, Prod.mk.injEq] at h
      exact ⟨unknownPrompt, h.1.symm⟩
    | undef =>
      simp only [findLoopV, Option.some.injEq, Prod.mk.injEq] at h
      exact ⟨unknownPrompt, h.1.symm⟩
    | bool b =>
      simp only [findLoopV, Option.some.injEq, Prod.mk.injEq] at h
      exact ⟨unknownPrompt, h.1.symm⟩
    | num n =>
      simp only [findLoopV, Option.some.injEq, Prod.mk.injEq] at h
      exact ⟨unknownPrompt, h.1.symm⟩
    | arr xs =>
      simp only [findLoopV, Option.some.injEq, Prod.mk.injEq] at h
      exact ⟨unknownPrompt, h.1.symm⟩
    | obj fs =>
      simp only [findLoopV, Option.some.injEq, Prod.mk.injEq] at h
      exact ⟨unknownPrompt, h.1.symm⟩

/-- C7 counterexample: the claim says the walk returns either the
resolved user-prompt text or the sentinel for every starting node and
parent-link structure.  When the reached user node's `parts` is a truthy
non-array (here the number `5`), `parts.filter` does not exist
(src/chatgpt-content.js:266-267) and the walk throws instead of
returning. -/
theorem claim_C7_counterexample :
    findParentUserPrompt mapBadParts (.obj [("parent", .str "b")]) =
      .error () := rfl

/-- C7 as amended: for every starting node and parent-link structure —
missing parents, ids absent from the mapping, message-less nodes,
self-referential or cyclic chains — the walk terminates within
`fuelBound` (mapping-key count plus two) steps and never revisits a node
id; and provided every user-authored node reachable by key lookup
carries a sequence-valued (or absent) `parts`, it returns either the
resolved user-prompt text or the sentinel rather than throwing. -/
theorem claim_C7_walk_terminates :
    (∀ m start : JSVal,
      (findLoopV m (fuelBound m) [] (getPropRaw start "parent")).isSome = true) ∧
    (∀ (m cur : JSVal) (fuel : Nat) (r : Except Unit String) (vf : List String),
      findLoopV m fuel [] cur = some (r, vf) → vf.Nodup) ∧
    (∀ m start : JSVal, userPartsOk m = true →
      ∃ s, findParentUserPrompt m start = .ok s) := by
  have hbound : ∀ m : JSVal, ∀ cur : JSVal,
      (findLoopV m (fuelBound m) [] cur).isSome = true := by
    intro m cur
    apply findLoopV_isSome
    calc walkBound m [] cur ≤ (keysLeft m []).length + 2 := walkBound_le _ _ _
      _ = fuelBound m := by
          rw [fuelBound, keysLeft]
          simp
  refine ⟨fun m start => hbound m _, ?_, ?_⟩
  · intro m cur fuel r vf h
    exact findLoopV_nodup fuel m [] cur r vf h List.nodup_nil
  · intro m start hok
    obtain ⟨p, hp⟩ := Option.isSome_iff_exists.mp (hbound m (getPropRaw start "parent"))
    obtain ⟨r, vf⟩ := p
    obtain ⟨s, rfl⟩ := findLoopV_ok (fuelBound m) m [] _ r vf hok hp
    refine ⟨s, ?_⟩
    rw [findParentUserPrompt, hp]
    rfl

/-- Witness for C7 (amended) at a two-node parent cycle. -/
theorem claim_C7_walk_terminates_witness :
    (findLoopV
        (.obj [("a", .obj [("parent", .str "b")]),
               ("b", .obj [("parent", .str "a")])])
        (fuelBound (.obj [("a", .obj [("parent", .str "b")]),
               ("b", .obj [("parent", .str "a")])]))
        [] (getPropRaw (.obj [("parent", .str "a")]) "parent")).isSome = true ∧
    List.Nodup ["b", "a"] ∧
    (∃ s, findParentUserPrompt
        (.obj [("a", .obj [("parent", .str "b")]),
               ("b", .obj [("parent", .str "a")])])
        (.obj [("parent", .str "a")]) = .ok s) :=
  ⟨claim_C7_walk_terminates.1 _ _,
   claim_C7_walk_terminates.2.1
      (.obj [("a", .obj [("parent", .str "b")]),
             ("b", .obj [("parent", .str "a")])])
      (.str "a") 4 (.ok unknownPrompt) ["b", "a"] rfl,
   claim_C7_walk_terminates.2.2 _ _ rfl⟩

/-- Keys of the bucket list after an update: unchanged when the key
already has a bucket (the findings are merged into it), otherwise the
new key is appended once at the end. -/
theorem updateGroups_keys :
    ∀ (gs : List (String × PromptGroup)) (k : String) (sh vi : List String)
      (cs : List Citation) (model : JSVal),
      (updateGroups k sh vi cs model gs).map Prod.fst =
        if k ∈ gs.map Prod.fst then gs.map Prod.fst
        else gs.map Prod.fst ++ [k] := by
  intro gs
  induction gs with
  | nil => intro k sh vi cs model; simp [updateGroups]
  | cons kg gs ih =>
    obtain ⟨k', g⟩ := kg
    intro k sh vi cs model
    rw [updateGroups]
    by_cases hk : k' = k
    · subst hk
      simp
    · simp only [List.map_cons]
      rw [if_neg hk]
      simp only [List.map_cons, ih]
      by_cases hmem : k ∈ gs.map Prod.fst
      · rw [if_pos hmem, if_pos (by simp [hmem])]
      · rw [if_neg hmem, if_neg (by simp [hmem, Ne.symm hk])]
        simp

/-- Bucket updates preserve duplicate-freeness of the bucket keys. -/
theorem updateGroups_keys_nodup (gs : List (String × PromptGroup)) (k : String)
    (sh vi : List String) (cs : List Citation) (model : JSVal)
    (h : (gs.map Prod.fst).Nodup) :
    ((updateGroups k sh vi cs model gs).map Prod.fst).Nodup := by
  rw [updateGroups_keys]
  by_cases hmem : k ∈ gs.map Prod.fst
  · rw [if_pos hmem]; exact h
  · rw [if_neg hmem]
    simp [List.nodup_append, h, hmem]

/-- Each per-node step either leaves the buckets unchanged or performs
exactly one `updateGroups`. -/
theorem processNode_shape (jp : String → Option JSVal) (data m : JSVal)
    (gs gs' : List (String × PromptGroup)) (node : JSVal)
    (h : processNode jp data m gs node = .ok gs') :
    gs' = gs ∨ ∃ k sh vi cs model, gs' = updateGroups k sh vi cs model gs := by
  rw [processNode] at h
  simp only [Bind.bind, Except.bind] at h
  repeat' split at h
  all_goals
    first
    | exact Except.noConfusion h
    | (simp only [pure, Except.pure, Except.ok.injEq] at h
       first
       | exact Or.inl h.symm
       | exact Or.inr ⟨_, _, _, _, _, h.symm⟩)

/-- The first pass keeps bucket keys duplicate-free: one bucket per
resolved prompt text. -/
theorem foldlM_keys_nodup (jp : String → Option JSVal) (data m : JSVal) :
    ∀ (nodes : List JSVal) (init gs : List (String × PromptGroup)),
      nodes.foldlM (fun gs node => processNode jp data m gs node) init = .ok gs →
      (init.map Prod.fst).Nodup → (gs.map Prod.fst).Nodup := by
  intro nodes
  induction nodes with
  | nil =>
    intro init gs h hn
    simp only [List.foldlM_nil, pure, Except.pure, Except.ok.injEq] at h
    exact h ▸ hn
  | cons n ns ih =>
    intro init gs h hn
    rw [List.foldlM_cons] at h
    simp only [Bind.bind, Except.bind] at h
    cases h1 : processNode jp data m init n with
    | error e => rw [h1] at h; cases h
    | ok g1 =>
      rw [h1] at h
      apply ih g1 gs h
      rcases processNode_shape jp data m init g1 n h1 with rfl |
        ⟨k, sh, vi, cs, model, rfl⟩
      · exact hn
      · exact updateGroups_keys_nodup init k sh vi cs model hn

/-- C10: when the walk reaches a user-authored node whose content parts
hold no plain-string parts with visible text (the string-filtered join
trims to empty), it returns the empty string — not the sentinel, which
is a different string — and the first pass keeps at most one bucket per
key, so every node resolving to `""` is merged into the single bucket
keyed by the empty string. -/
theorem claim_C10_blank_prompt_key :
    (∀ (m : JSVal) (visited : List String) (id : String) (fuel : Nat)
       (ps : List JSVal),
      id ≠ "" → id ∉ visited →
      (getPropRaw m id).truthy = true →
      (getPropRaw (getPropRaw m id) "message").truthy = true →
      (getPropOpt (getPropRaw (getPropRaw (getPropRaw m id) "message")
          "author") "role").beq (.str "user") = true →
      userPartsValue (getPropRaw (getPropRaw m id) "message") = .arr ps →
      jsTrim (joinSpace (ps.filterMap fun p =>
          match p with | .str s => some s | _ => none)) = "" →
      findLoopV m (fuel + 1) visited (.str id) =
        some (.ok "", id :: visited)) ∧
    ("" : String) ≠ unknownPrompt ∧
    (∀ (jp : String → Option JSVal) (data m : JSVal)
       (nodes : List JSVal) (gs : List (String × PromptGroup)),
      nodes.foldlM (fun gs node => processNode jp data m gs node) [] = .ok gs →
      (gs.map Prod.fst).Nodup) := by
  refine ⟨?_, by decide, ?_⟩
  · intro m visited id fuel ps h0 h1 hnt hmt hrole hps hempty
    rw [findLoopV]
    rw [if_neg h0, if_neg h1]
    rw [if_neg (by simp [hnt, hmt])]
    rw [if_pos hrole]
    rw [hps]
    rw [joinUserParts]
    rw [hempty]
  · intro jp data m nodes gs h
    exact foldlM_keys_nodup jp data m nodes [] gs h List.nodup_nil

/-- Witness for C10: the walk step at `mapBlankUser` resolves to `""`,
and the first pass over `convQueries` produces duplicate-free bucket
keys. -/
theorem claim_C10_blank_prompt_key_witness :
    findLoopV mapBlankUser 1 [] (.str "b") = some (.ok "", ["b"]) ∧
    ((([("q prompt",
        ({ shadow := ["Alpha", "beta"], visible := ["Beta", "gamma"],
           citations := [], model := .str "unknown" } : PromptGroup))] :
        List (String × PromptGroup)).map Prod.fst).Nodup) :=
  ⟨claim_C10_blank_prompt_key.1 mapBlankUser [] "b" 0 [.obj []]
      (by decide) (by simp) rfl rfl rfl rfl rfl,
   claim_C10_blank_prompt_key.2.2 jpNone convQueries
      (getPropRaw convQueries "mapping")
      (jsValues (getPropRaw convQueries "mapping"))
      [("q prompt",
        { shadow := ["Alpha", "beta"], visible := ["Beta", "gamma"],
          citations := [], model := .str "unknown" })] rfl⟩
